import Mathlib

/-!
Shallow embedding of the dbx repository's SQL compilation core, translated
from the TypeScript source:

* `Repository._where` (condition compiler), from `src/unnamed/part_001`
  (the current revision of `repository.ts`; the variant in
  `src/src/repository.ts` agrees on everything proved here except where
  noted in doc comments).
* `DB._transformParameters` (named-parameter binder), from `src/src/db.ts`.
* `DDL.outdatedSchema` (freshness check), `DDL.createColumn` and
  `DDL.createColumnConstraint` (DDL compiler), from `src/src/ddl.ts`.

JavaScript values are modelled by the inductive `JVal`; JS objects are
modelled as insertion-ordered entry lists (`List (String × JVal)`), which
coincide with JS objects when the keys are distinct.  Numbers are modelled
as `Int` (the claims under study never depend on float behaviour).
Filesystem reads performed by the freshness check are abstracted as string
inputs (the code itself only compares the strings it extracts from them).
-/

namespace Dbx

/-- A JavaScript runtime value (the subset the compiler manipulates).
`jundefined` is JS `undefined`, distinct from `jnull` (JS `null`). -/
inductive JVal where
  | jundefined
  | jnull
  | jbool (b : Bool)
  | jnum (n : Int)
  | jstr (s : String)
  | jarr (elems : List JVal)
  | jobj (entries : List (String × JVal))

/-- JS `value === null` (strict equality against the `null` literal). -/
def isNull : JVal → Bool
  | .jnull => true
  | _ => false

/-- JS `value == null`-style nullish test (`null` or `undefined`). -/
def isNullish : JVal → Bool
  | .jnull => true
  | .jundefined => true
  | _ => false

/-- JS truthiness of a value. -/
def truthy : JVal → Bool
  | .jundefined => false
  | .jnull => false
  | .jbool b => b
  | .jnum n => n != 0
  | .jstr s => s != ""
  | .jarr _ => true
  | .jobj _ => true

/-- `Array.prototype.join` / `String.prototype`-style join: the JS
`list.join(sep)` (used by the source's `join` helper and `Array.join`). -/
def joinSep (sep : String) : List String → String
  | [] => ""
  | [s] => s
  | s :: t :: rest => s ++ sep ++ joinSep sep (t :: rest)

/-- The source helper `join(label, count, separator = ",")`:
`new Array(count).fill(label).join(separator)`. -/
def joinRep (label : String) (count : Nat) (sep : String) : String :=
  joinSep sep (List.replicate count label)

/-- JS string coercion of a value, as performed by template literals and
`Array.prototype.join`.  For arrays this is `join(",")`, which renders
`null`/`undefined` elements as the empty string. -/
def jToString : JVal → String
  | .jundefined => "undefined"
  | .jnull => "null"
  | .jbool b => cond b "true" "false"
  | .jnum n => toString n
  | .jstr s => s
  | .jarr l =>
      joinSep "," (l.attach.map fun ⟨v, _⟩ =>
        if isNullish v then "" else jToString v)
  | .jobj _ => "[object Object]"
decreasing_by
  have := List.sizeOf_lt_of_mem (by assumption)
  simp only [JVal.jarr.sizeOf_spec]
  omega

/-- `Object.keys` of a value (array and string indices stringified;
non-objects have no keys, which also models the source's `value || {}`
guard since `Object.keys` of any falsy primitive-replacement is empty). -/
def keysOf : JVal → List String
  | .jobj l => l.map Prod.fst
  | .jarr l => (List.range l.length).map toString
  | .jstr s => (List.range s.length).map toString
  | _ => []

/-- JS property access `value[key]`, yielding `undefined` when absent.
For entry lists with duplicate keys the last binding wins, matching the
semantics of a JS object literal. -/
def getProp : JVal → String → JVal
  | .jobj l, k =>
      match l.reverse.find? (fun e => e.1 == k) with
      | some e => e.2
      | none => .jundefined
  | .jarr l, k =>
      match (List.range l.length).find? (fun i => toString i == k) with
      | some i => l.getD i .jundefined
      | none => .jundefined
  | .jstr s, k =>
      match (List.range s.length).find? (fun i => toString i == k) with
      | some i => .jstr (String.mk [s.data.getD i ' '])
      | none => .jundefined
  | _, _ => .jundefined

/-- Elements iterated by `for (const w of value)` and by spread `...value`.
Only arrays are modelled (the typed API only passes arrays here; JS would
throw a `TypeError` on non-iterables, and string iteration is outside the
`Condition[]` type). -/
def elemsOf : JVal → List JVal
  | .jarr l => l
  | _ => []

/-- `Object.entries(value ?? {})` as used on condition objects.  Only the
object case is modelled (conditions are objects in the typed API); any
non-object compiles like the empty condition, as in the JS code for
`null`/`undefined`/primitive inputs. -/
def entriesOf : JVal → List (String × JVal)
  | .jobj l => l
  | _ => []

/-- JS `value.length` as used for the placeholder count of an exploded
`in`/`nin` argument (only arrays reach this point under the typed API). -/
def jLength : JVal → Nat
  | .jarr l => l.length
  | .jstr s => s.length
  | _ => 0

/-- The supported SQL dialects (`DB.Provider`). -/
inductive Dialect where
  | mysql
  | postgres
  | sqlite
deriving DecidableEq

/-- The `operators` lookup table of `repository.ts`. -/
def opOf : String → Option String
  | "eq" => some "="
  | "neq" => some "!="
  | "gt" => some ">"
  | "gte" => some ">="
  | "lt" => some "<"
  | "lte" => some "<="
  | "in" => some "IN"
  | "contains" => some "MEMBER OF"
  | "nin" => some "NOT IN"
  | "match" => some "MATCH"
  | _ => none

/-- `expressions.join(" AND ") || "TRUE"`: the JS `||` falls back to
`"TRUE"` exactly when the joined string is empty. -/
def strOrTrue (s : String) : String :=
  if s = "" then "TRUE" else s

/-- One non-combinator iteration of the loop body of `Repository._where`
(`src/unnamed/part_001` lines 276-317): compiles a single predicate entry
`name: value` to its SQL expressions (zero or one) and pushed arguments.
The column quote character `CQ` is `""` in the source, so `column = name`. -/
def compileEntry (d : Dialect) (ftc : List String) (name : String) (value : JVal) :
    List String × List JVal :=
  let key? := (keysOf value).getLast?
  let column := name
  let op? := key?.bind opOf
  if op? = some "MATCH" then
    match key? with
    | some k =>
      let v := getProp value k
      if truthy v = false then ([], [])
      else
        let term :=
          if ftc.isEmpty then "%" ++ jToString v ++ "%"
          else jToString v ++ (if d = .postgres then "" else "*")
        if ftc.isEmpty then ([column ++ " LIKE ?"], [JVal.jstr term])
        else
          match d with
          | .mysql =>
              (["MATCH (" ++ joinSep "," ftc ++ ") AGAINST (? IN BOOLEAN MODE)"],
               [JVal.jstr term])
          | .postgres =>
              (["TO_TSVECTOR('english', " ++ joinSep "," ftc ++ ") @@ TO_TSQUERY(?)"],
               [JVal.jstr term])
          | .sqlite => ([], [JVal.jstr term])
    | none => ([], [])
  else if column = "$sql" then
    ([jToString value], [])
  else
    let fallback : List String × List JVal :=
      ([column ++ " " ++ (if isNull value then "IS" else "=") ++ " ?"], [value])
    match key? with
    | none => fallback
    | some k =>
      match opOf k with
      | none => fallback
      | some op =>
        if k = "" then fallback
        else
          let explode := op = "IN" ∨ op = "NOT IN"
          let v := getProp value k
          let pushed := if explode then elemsOf v else [v]
          let op2 :=
            if isNull v then
              if k = "eq" then "IS" else if k = "neq" then "IS NOT" else op
            else op
          if k = "contains" then
            match d with
            | .mysql => (["? " ++ op2 ++ " (" ++ column ++ ")"], pushed)
            | .postgres => (["JSONB_EXISTS(CAST(" ++ column ++ " AS JSONB), ?)"], pushed)
            | .sqlite => ([column ++ " LIKE ?"], pushed)
          else
            ([column ++ " " ++ op2 ++
               (if explode then " (" ++ joinRep "?" (jLength v) "," ++ ")" else " ?")],
             pushed)

/-- The entry loop of `Repository._where`: walks the condition object's
entries in insertion order, accumulating SQL expressions and pushed
arguments.  An `and`/`or` entry recursively compiles each child condition
and then `break`s out of the loop (later entries are ignored), exactly as
in the source. -/
def whereGo (d : Dialect) (ftc : List String) : List (String × JVal) → List String × List JVal
  | [] => ([], [])
  | (name, value) :: rest =>
    if name = "and" then
      let sub := (elemsOf value).attach.map fun ⟨w, _⟩ =>
        let r := whereGo d ftc (entriesOf w)
        (strOrTrue (joinSep " AND " r.1), r.2)
      (["(" ++ joinSep " AND " (sub.map Prod.fst) ++ ")"], (sub.map Prod.snd).flatten)
    else if name = "or" then
      let sub := (elemsOf value).attach.map fun ⟨w, _⟩ =>
        let r := whereGo d ftc (entriesOf w)
        (strOrTrue (joinSep " AND " r.1), r.2)
      (["(" ++ joinSep " OR " (sub.map Prod.fst) ++ ")"], (sub.map Prod.snd).flatten)
    else
      let e := compileEntry d ftc name value
      let r := whereGo d ftc rest
      (e.1 ++ r.1, e.2 ++ r.2)
termination_by l => sizeOf l
decreasing_by
  · have h1 : sizeOf (entriesOf w) ≤ sizeOf w := by
      cases w <;> simp [entriesOf]
    have h2 : sizeOf w < sizeOf value := by
      rename_i hmem
      cases value <;> simp [elemsOf] at hmem
      have := List.sizeOf_lt_of_mem hmem
      simp only [JVal.jarr.sizeOf_spec]
      omega
    simp only [List.cons.sizeOf_spec, Prod.mk.sizeOf_spec]
    omega
  · have h1 : sizeOf (entriesOf w) ≤ sizeOf w := by
      cases w <;> simp [entriesOf]
    have h2 : sizeOf w < sizeOf value := by
      rename_i hmem
      cases value <;> simp [elemsOf] at hmem
      have := List.sizeOf_lt_of_mem hmem
      simp only [JVal.jarr.sizeOf_spec]
      omega
    simp only [List.cons.sizeOf_spec, Prod.mk.sizeOf_spec]
    omega
  · simp only [List.cons.sizeOf_spec]
    omega

namespace Repository

/-- `Repository._where(where, tree, fullTextColumns)` from
`src/unnamed/part_001`: returns the SQL boolean fragment and the list of
values pushed onto `tree`.  The mutated accumulator of the source is
modelled by returning the pushed values. -/
def _where (d : Dialect) (ftc : List String) (w : JVal) : String × List JVal :=
  let r := whereGo d ftc (entriesOf w)
  (strOrTrue (joinSep " AND " r.1), r.2)

end Repository

/-- Number of `?` placeholder characters in a SQL fragment. -/
def countQ (s : String) : Nat :=
  s.data.count '?'

/-- A string free of the `?` placeholder character. -/
def noQ (s : String) : Bool :=
  s.data.all (fun c => c != '?')

/-- Well-formedness of a single predicate entry for the alignment
invariant: the column name is free of the placeholder character, a `$sql`
escape's rendered value is free of it as well, and an exploding
`in`/`nin` operator (when it is the honored last key) carries an array. -/
def entryOk (name : String) (value : JVal) : Bool :=
  noQ name &&
  (name != "$sql" || noQ (jToString value)) &&
  (match (keysOf value).getLast? with
   | some k =>
     if k = "in" ∨ k = "nin" then
       match getProp value k with
       | .jarr _ => true
       | _ => false
     else true
   | none => true)

/-- Well-formedness of a condition's entry list, mirroring the traversal
of `whereGo` (entries after an `and`/`or` combinator are ignored by the
compiler and hence unconstrained). -/
def condOk : List (String × JVal) → Bool
  | [] => true
  | (name, value) :: rest =>
    if name = "and" then
      (elemsOf value).attach.all fun ⟨w, _⟩ => condOk (entriesOf w)
    else if name = "or" then
      (elemsOf value).attach.all fun ⟨w, _⟩ => condOk (entriesOf w)
    else entryOk name value && condOk rest
termination_by l => sizeOf l
decreasing_by
  · have h1 : sizeOf (entriesOf w) ≤ sizeOf w := by
      cases w <;> simp [entriesOf]
    have h2 : sizeOf w < sizeOf value := by
      rename_i hmem
      cases value <;> simp [elemsOf] at hmem
      have := List.sizeOf_lt_of_mem hmem
      simp only [JVal.jarr.sizeOf_spec]
      omega
    simp only [List.cons.sizeOf_spec, Prod.mk.sizeOf_spec]
    omega
  · have h1 : sizeOf (entriesOf w) ≤ sizeOf w := by
      cases w <;> simp [entriesOf]
    have h2 : sizeOf w < sizeOf value := by
      rename_i hmem
      cases value <;> simp [elemsOf] at hmem
      have := List.sizeOf_lt_of_mem hmem
      simp only [JVal.jarr.sizeOf_spec]
      omega
    simp only [List.cons.sizeOf_spec, Prod.mk.sizeOf_spec]
    omega
  · simp only [List.cons.sizeOf_spec]
    omega

/-- A primitive SQL parameter value (`Parameter` in `types.ts`):
`undef` is JS `undefined` (what an absent binding looks up to). -/
inductive Prim where
  | undefined
  | pnull
  | pbool (b : Bool)
  | pint (n : Int)
  | pstr (s : String)
deriving DecidableEq

/-- A bound named-parameter value: a primitive or an array of primitives
(arrays are expanded into repeated placeholders by the binder). -/
inductive PVal where
  | prim (p : Prim)
  | arr (elems : List Prim)
deriving DecidableEq

/-- JS `Array.isArray(value) === false && value === undefined` test. -/
def isUndefP : PVal → Bool
  | .prim .undefined => true
  | _ => false

/-- JS object lookup `objectParameters[name]`: `undefined` when absent
(last binding wins for duplicate keys, as in a JS object literal). -/
def lookupParam (params : List (String × PVal)) (name : String) : PVal :=
  match params.reverse.find? (fun e => e.1 == name) with
  | some e => e.2
  | none => .prim .undefined

/-- First character class of the token regex `[:][$A-Z_][0-9A-Z_$]*` with
the `i` flag: `$`, `_`, ASCII letters. -/
def isIdentStart (c : Char) : Bool :=
  c == '$' || c == '_' || c.isAlpha

/-- Continuation character class `[0-9A-Z_$]` with the `i` flag. -/
def isIdentCont (c : Char) : Bool :=
  c == '$' || c == '_' || c.isAlpha || c.isDigit

/-- The replacement emitted for one matched token:
`isArray ? value.map(() => "?").join(",") : "?"`. -/
def placeholderOf (v : PVal) : String :=
  match v with
  | .arr l => joinSep "," (l.map fun _ => "?")
  | .prim _ => "?"

/-- The values pushed for one matched token: the array elements for an
array (`arrayParameters.push(...value)`), else the value itself. -/
def argsOf (v : PVal) : List Prim :=
  match v with
  | .arr l => l
  | .prim p => [p]

/-- The left-to-right scan performed by `sql.replace(/:[$A-Z_][0-9A-Z_$]*/ig, ...)`
in `DB._transformParameters` (`src/src/db.ts` lines 173-184): each matched
token is replaced by its placeholder(s) and its value(s) are appended, in
occurrence order; an undefined parameter raises unless `safe` is set. -/
def transformGo (params : List (String × PVal)) (safe : Bool) :
    List Char → Except String (List Char × List Prim)
  | [] => .ok ([], [])
  | ':' :: c :: rest =>
    if isIdentStart c then
      let tok := rest.takeWhile isIdentCont
      let rest2 := rest.dropWhile isIdentCont
      let name := String.mk (c :: tok)
      let value := lookupParam params name
      if isUndefP value && !safe then
        .error ("Undefined parameter ':" ++ name ++ "'")
      else
        match transformGo params safe rest2 with
        | .error e => .error e
        | .ok (s, args) => .ok ((placeholderOf value).data ++ s, argsOf value ++ args)
    else
      match transformGo params safe (c :: rest) with
      | .error e => .error e
      | .ok (s, args) => .ok (':' :: s, args)
  | c :: rest =>
    match transformGo params safe rest with
    | .error e => .error e
    | .ok (s, args) => .ok (c :: s, args)
termination_by l => l.length
decreasing_by
  · have := (List.dropWhile_suffix isIdentCont (l := rest)).sublist.length_le
    simp_all
    omega
  · simp
  · simp

namespace DB

/-- `DB._transformParameters(sql, objectParameters, arrayParameters, safe)`
from `src/src/db.ts`: rewrites `:name` tokens to positional `?`
placeholders and returns the rebuilt argument list (the cleared-and-filled
`arrayParameters` accumulator of the source). -/
def _transformParameters (sql : String) (objectParameters : List (String × PVal))
    (safe : Bool) : Except String (String × List Prim) :=
  match transformGo objectParameters safe sql.data with
  | .error e => .error e
  | .ok (s, args) => .ok (String.mk s, args)

end DB

/-- No position of the character list starts a `:identifier` token. -/
def noTok : List Char → Bool
  | [] => true
  | ':' :: c :: rest => !isIdentStart c && noTok (c :: rest)
  | _ :: rest => noTok rest

/-- A well-formed identifier for the token regex. -/
def identName (nm : String) : Bool :=
  match nm.data with
  | [] => false
  | c :: cs => isIdentStart c && cs.all isIdentCont

/-- A well-formed template segment `(name, literal)`: the name is an
identifier, the trailing literal starts no token, and the literal does not
begin with an identifier-continuation character (so the name is maximal). -/
def segOk (p : String × String) : Bool :=
  identName p.1 && noTok p.2.data &&
    (match p.2.data with
     | [] => true
     | c :: _ => !isIdentCont c)

/-- The token/literal segments of a template, rendered back to text. -/
def joinSegs : List (String × String) → String
  | [] => ""
  | p :: rest => ":" ++ p.1 ++ p.2 ++ joinSegs rest

/-- A SQL template written as a leading literal followed by
`:name`-token/literal segments. -/
def renderTemplate (lit0 : String) (segs : List (String × String)) : String :=
  lit0 ++ joinSegs segs

/-- The tail of the placeholder-rewritten template the binder is expected
to return: each token becomes its placeholder(s). -/
def expTail (params : List (String × PVal)) : List (String × String) → String
  | [] => ""
  | p :: rest => placeholderOf (lookupParam params p.1) ++ p.2 ++ expTail params rest

/-- The placeholder-rewritten template the binder is expected to return. -/
def expectedSql (params : List (String × PVal)) (lit0 : String)
    (segs : List (String × String)) : String :=
  lit0 ++ expTail params segs

/-- The argument list the binder is expected to return: each occurrence
re-emits its value(s), in left-to-right occurrence order. -/
def expectedArgs (params : List (String × PVal)) : List (String × String) → List Prim
  | [] => []
  | p :: rest => argsOf (lookupParam params p.1) ++ expectedArgs params rest

/-- A `minimum`/`maximum` bound (`number | string` in `types.ts`). -/
inductive NumStr where
  | num (n : Int)
  | str (s : String)

/-- JS truthiness of a bound (`0` and `""` are falsy). -/
def numStrTruthy : NumStr → Bool
  | .num n => n != 0
  | .str s => s != ""

/-- The `value` helper of `DDL.createColumnConstraint`:
`typeof v === "string" ? "'" + v + "'" : v`. -/
def numStrValue : NumStr → String
  | .num n => toString n
  | .str s => "'" ++ s ++ "'"

/-- A column `default`: a string, a number, a boolean, or an object
carried as its JSON serialization (`JSON.stringify(cd)`). -/
inductive DefVal where
  | str (s : String)
  | num (n : Int)
  | bool (b : Bool)
  | objJson (json : String)

/-- A generated-column expression (`as` in the schema): a single
dialect-neutral SQL string or a per-dialect map keyed by provider name. -/
inductive GenExpr where
  | str (s : String)
  | byDialect (m : List (String × String))

/-- The provider name string of a dialect (`DB.Provider` values). -/
def dialectName : Dialect → String
  | .mysql => "mysql"
  | .postgres => "postgres"
  | .sqlite => "sqlite"

/-- A schema column (`Column` in `types.ts`), restricted to the fields
`DDL.createColumn`/`DDL.createColumnConstraint` read.  `asExpr` models the
source's `as` attribute.  An absent (`undefined`) attribute is `none`. -/
structure ColumnD where
  type : String
  maxLength : Option Nat := none
  minimum : Option NumStr := none
  maximum : Option NumStr := none
  primaryKey : Option Bool := none
  unique : Option Bool := none
  default : Option DefVal := none
  dateOn : Option String := none
  asExpr : Option GenExpr := none
  description : Option String := none
  constraint : Option String := none

/-- JS truthiness of an optional string attribute. -/
def optStrTruthy : Option String → Bool
  | some s => s != ""
  | none => false

/-- JS truthiness of an optional bound attribute. -/
def optNumStrTruthy : Option NumStr → Bool
  | some v => numStrTruthy v
  | none => false

/-- JS truthiness of the `as` attribute. -/
def genTruthy : Option GenExpr → Bool
  | some (.str s) => s != ""
  | some (.byDialect _) => true
  | none => false

namespace DDL

/-- `DDL.padWidth`. -/
def padWidth : Nat := 4

/-- `DDL.defaultWidth`. -/
def defaultWidth : Nat := 128

/-- `DDL.textWidth`. -/
def textWidth : Nat := 2048

/-- The `dataTypes` lookup table of `ddl.ts` (unknown types are absent). -/
def dataTypes : String → Option String
  | "array" => some "JSON"
  | "boolean" => some "BOOLEAN"
  | "date" => some "DATETIME"
  | "integer" => some "INTEGER"
  | "object" => some "JSON"
  | "number" => some "DOUBLE"
  | "string" => some "VARCHAR"
  | _ => none

/-- The `serialType` lookup table of `ddl.ts`. -/
def serialType : Dialect → String
  | .sqlite => " AUTOINCREMENT"
  | .mysql => " AUTO_INCREMENT"
  | .postgres => ""

/-- `DDL.#defaultValue(column, dbType)` from `ddl.ts` lines 192-208:
`dateOn` timestamps first, generated columns get no default, string
defaults are auto-quoted unless already quoted or already a parenthesized
expression, object defaults become a quoted JSON literal. -/
def defaultValue (column : ColumnD) (dbType : Dialect) : Option DefVal :=
  if column.dateOn = some "insert" then some (.str "CURRENT_TIMESTAMP")
  else if column.dateOn = some "update" then
    some (.str ("CURRENT_TIMESTAMP" ++
      (if dbType ≠ .mysql then "" else " ON UPDATE CURRENT_TIMESTAMP")))
  else if genTruthy column.asExpr then none
  else
    match column.default with
    | none => none
    | some (.str s) =>
      if s.startsWith "('" ∧ s.endsWith "')" then some (.str s)
      else if ¬ s.startsWith "'" ∧ ¬ s.endsWith "'" then some (.str ("'" ++ s ++ "'"))
      else some (.str s)
    | some (.objJson j) => some (.str ("('" ++ j ++ "')"))
    | some (.num n) => some (.num n)
    | some (.bool b) => some (.bool b)

/-- JS truthiness of the rendered default (`${dv ? " DEFAULT " + dv : ""}`):
`0` and `""` are falsy. -/
def defTruthy : Option DefVal → Bool
  | none => false
  | some (.str s) => s != ""
  | some (.num n) => n != 0
  | some (.bool b) => b
  | some (.objJson _) => true

/-- JS string coercion of a default value. -/
def defStr : DefVal → String
  | .str s => s
  | .num n => toString n
  | .bool b => cond b "true" "false"
  | .objJson j => j

/-- `name.padEnd(namePad)`. -/
def padEndStr (s : String) (n : Nat) : String :=
  s ++ String.mk (List.replicate (n - s.length) ' ')

/-- The components of one rendered column clause, one field per local
`const` of `DDL.createColumn` (`ddl.ts` lines 211-231), in template
order. -/
structure ColumnParts where
  pad : String
  paddedName : String
  type : String
  length : String
  nullable : String
  asClause : String
  defClause : String
  key : String
  gen : String
  comment : String

/-- The template of `DDL.createColumn`:
`${pad}${name.padEnd(namePad)}${type}${length}${nullable}${as}${dv ? " DEFAULT " + dv : ""}${key}${gen}${comment},\n`. -/
def renderParts (p : ColumnParts) : String :=
  p.pad ++ p.paddedName ++ p.type ++ p.length ++ p.nullable ++ p.asClause ++
    p.defClause ++ p.key ++ p.gen ++ p.comment ++ ",\n"

/-- `const nullable = primaryKey || required ? " NOT NULL" : ""`
(`ddl.ts` line 218; `primaryKey` is `column.primaryKey !== undefined`). -/
def nullableClause (column : ColumnD) (required : Bool) : String :=
  if column.primaryKey.isSome ∨ required then " NOT NULL" else ""

/-- The crash guard of `DDL.createColumn` (`ddl.ts` line 217): the JS
code throws a `TypeError` exactly when the `dataTypes` lookup is
`undefined` (unknown column type, not overridden by the MySQL long-text
promotion) while `column.maxLength! < textWidth` is false, because the
short-circuit of `||` then evaluates `type.endsWith("CHAR")` on
`undefined`. -/
def createColumnThrows (dbType : Dialect) (column : ColumnD) : Bool :=
  let type0 := dataTypes column.type
  let mysqlBig := dbType == .mysql &&
    (match column.maxLength with | some m => decide (m > textWidth) | none => false)
  let type1 : Option String := if mysqlBig then some "TEXT" else type0
  let shortLen := (match column.maxLength with | some m => decide (m < textWidth) | none => false)
  type1.isNone && !shortLen

/-- The locals of `DDL.createColumn` (`ddl.ts` lines 211-231) computed in
source order, one record field per local `const`, assuming the crash
guard `createColumnThrows` did not fire.  (A surviving undefined type
renders as the string `"undefined"`, exactly as a JS template literal
would.) -/
def buildColumnParts (dbType : Dialect) (name : String) (column : ColumnD)
    (required : Bool) (namePad : Nat) : ColumnParts :=
  let pad := String.mk (List.replicate padWidth ' ')
  let type0 := dataTypes column.type
  let mysqlBig := dbType == .mysql &&
    (match column.maxLength with | some m => decide (m > textWidth) | none => false)
  let type1 : Option String := if mysqlBig then some "TEXT" else type0
  let primaryKey := column.primaryKey.isSome
  let autoIncrement := primaryKey && column.type == "integer"
  let shortLen := (match column.maxLength with | some m => decide (m < textWidth) | none => false)
  let typeStr := type1.getD "undefined"
  let hasLen := shortLen || typeStr.endsWith "CHAR"
  let length :=
    if hasLen then
      "(" ++ toString (match column.maxLength with | some m => m | none => defaultWidth) ++ ")"
    else ""
  let gen := if autoIncrement then serialType dbType else ""
  let expr : Option String :=
    match column.asExpr with
    | none => none
    | some (.str s) => some s
    | some (.byDialect m) =>
      (m.reverse.find? (fun e => e.1 == dialectName dbType)).map Prod.snd
  let asClause :=
    match expr with
    | some e => if e ≠ "" then " GENERATED ALWAYS AS (" ++ e ++ ") STORED" else ""
    | none => ""
  let dv := defaultValue column dbType
  let key :=
    if primaryKey then " PRIMARY KEY"
    else if column.unique.isSome then " UNIQUE" else ""
  let comment :=
    if dbType == .mysql && optStrTruthy column.description then
      " COMMENT '" ++ (column.description.getD "").replace "'" "''" ++ "'"
    else ""
  let typeStr2 := if dbType == .postgres && typeStr == "JSON" then "JSONB" else typeStr
  let typeStr3 := if dbType == .postgres && autoIncrement then "SERIAL" else typeStr2
  { pad := pad
    paddedName := padEndStr name namePad
    type := typeStr3
    length := length
    nullable := nullableClause column required
    asClause := asClause
    defClause := if defTruthy dv then " DEFAULT " ++ defStr (dv.getD (.str "")) else ""
    key := key
    gen := gen
    comment := comment }

/-- `DDL.createColumn`, split into its guard and its parts: `none` where
the JS code throws, else the parts of the rendered clause. -/
def createColumnParts (dbType : Dialect) (name : String) (column : ColumnD)
    (required : Bool) (namePad : Nat) : Option ColumnParts :=
  if createColumnThrows dbType column then none
  else some (buildColumnParts dbType name column required namePad)

/-- `DDL.createColumn(dbType, name, column, required, namePad)`:
the rendered column clause, or `none` where the JS code throws. -/
def createColumn (dbType : Dialect) (name : String) (column : ColumnD)
    (required : Bool) (namePad : Nat) : Option String :=
  (createColumnParts dbType name column required namePad).map renderParts

/-- The `expr` accumulation of `DDL.createColumnConstraint`
(`ddl.ts` lines 274-277): an inline `constraint` wins, else a truthy
`maximum`, else a truthy `minimum` — both bounds render as `name >= v`. -/
def constraintExpr (name : String) (column : ColumnD) : String :=
  if optStrTruthy column.constraint then column.constraint.getD ""
  else if optNumStrTruthy column.maximum then
    name ++ " >= " ++ numStrValue (column.maximum.getD (.num 0))
  else if optNumStrTruthy column.minimum then
    name ++ " >= " ++ numStrValue (column.minimum.getD (.num 0))
  else ""

/-- `DDL.createColumnConstraint(dbType, parent, name, column, padWidth)`
from `ddl.ts` lines 271-280. -/
def createColumnConstraint (dbType : Dialect) (parent name : String) (column : ColumnD)
    (pw : Nat) : String :=
  let pad := String.mk (List.replicate pw ' ')
  let expr := constraintExpr name column
  let name2 := parent ++ "_" ++ name
  if expr ≠ "" then
    pad ++ (if name2 ≠ "" ∧ dbType ≠ .sqlite then "CONSTRAINT " ++ name2 ++ " " else "") ++
      "CHECK (" ++ expr ++ "),\n"
  else ""

/-- `DDL.outdatedSchema(schema, base)` from `ddl.ts` lines 161-179, with
the filesystem and URL plumbing abstracted into its string inputs:
`schemaDate` is the timestamp fragment of `schema.$id` (the URL hash),
`fileDate` the first 19 characters of the source file's mtime ISO string,
`storedEtag` the schema's `etag`, and `currentEtag` the etag recomputed
from the file.  Second-precision ISO-8601 strings compare
lexicographically consistently with chronology, so the source's string
comparison `schemaDate < fileDate` means "the file is strictly newer". -/
def outdatedSchema (schemaDate fileDate storedEtag currentEtag : String) : Bool :=
  if schemaDate < fileDate then true
  else storedEtag != currentEtag

end DDL

/- ## General lemmas -/

theorem string_append_eq_empty (a b : String) : a ++ b = "" ↔ a = "" ∧ b = "" := by
  constructor
  · intro h
    have h2 := congrArg String.data h
    simp only [String.data_append] at h2
    have ha := List.append_eq_nil.mp h2
    exact ⟨String.ext ha.1, String.ext ha.2⟩
  · rintro ⟨rfl, rfl⟩
    rfl

theorem getLast?_map {α β : Type} (f : α → β) (l : List α) :
    (l.map f).getLast? = l.getLast?.map f := by
  rw [← List.head?_reverse, ← List.map_reverse, List.head?_map, List.head?_reverse]

theorem getProp_jobj_getLast (kvs : List (String × JVal)) (k : String) (v : JVal)
    (hlast : kvs.getLast? = some (k, v)) : getProp (.jobj kvs) k = v := by
  have hrev : kvs.reverse.head? = some (k, v) := by
    rw [List.head?_reverse]; exact hlast
  obtain ⟨t, ht⟩ : ∃ t, kvs.reverse = (k, v) :: t := by
    cases h : kvs.reverse <;> simp_all
  simp [getProp, ht]

/-- The predicate branch of `Repository._where` reads only the *last* key
of the predicate object (`Object.keys(value).pop()`) and that key's value.
When that key is a recognized operator and the column is not the raw
`$sql` escape, the whole predicate object can be replaced by its last
entry without changing the compilation. -/
theorem compileEntry_jobj_getLast (d : Dialect) (ftc : List String) (col : String)
    (kvs : List (String × JVal)) (k : String) (v : JVal)
    (hlast : kvs.getLast? = some (k, v)) (hop : (opOf k).isSome) (hcol : col ≠ "$sql") :
    compileEntry d ftc col (.jobj kvs) = compileEntry d ftc col (.jobj [(k, v)]) := by
  obtain ⟨op, hopEq⟩ := Option.isSome_iff_exists.mp hop
  have hk : k ≠ "" := by
    intro h
    subst h
    simp [opOf] at hopEq
  have hkeys : (keysOf (JVal.jobj kvs)).getLast? = some k := by
    simp [keysOf, getLast?_map, hlast]
  have hkeys2 : (keysOf (JVal.jobj [(k, v)])).getLast? = some k := by
    simp [keysOf]
  have hprop : getProp (JVal.jobj kvs) k = v := getProp_jobj_getLast kvs k v hlast
  have hprop2 : getProp (JVal.jobj [(k, v)]) k = v := getProp_jobj_getLast [(k, v)] k v (by simp)
  simp only [compileEntry, hkeys, hkeys2, hprop, hprop2, Option.bind_some, hopEq, hk]
  simp [hk, hcol]

/-- `Repository._where` on a single-predicate condition reduces to the
compilation of that one entry. -/
theorem _where_single (d : Dialect) (ftc : List String) (col : String) (value : JVal)
    (h1 : col ≠ "and") (h2 : col ≠ "or") :
    Repository._where d ftc (.jobj [(col, value)]) =
      (strOrTrue (joinSep " AND " (compileEntry d ftc col value).1),
       (compileEntry d ftc col value).2) := by
  simp [Repository._where, whereGo, entriesOf, h1, h2]

/- ## Claims -/

/-- Claim C1: a predicate whose value is null — bare shorthand
`{column: null}` or explicit `{column: {eq: null}}` / `{column: {neq: null}}`
— compiles to a comparison using `IS` (resp. `IS NOT`) rather than `=`
(resp. `!=`), and the null value is still appended to the argument list:
`{a: null}` compiles to `a IS ?` with arguments `[null]`, never `a = ?`. -/
theorem claim1_null_renders_is (d : Dialect) (ftc : List String) (col : String)
    (h1 : col ≠ "and") (h2 : col ≠ "or") (h3 : col ≠ "$sql") :
    Repository._where d ftc (.jobj [(col, .jnull)]) = (col ++ " IS ?", [JVal.jnull]) ∧
    Repository._where d ftc (.jobj [(col, .jobj [("eq", .jnull)])]) =
      (col ++ " IS ?", [JVal.jnull]) ∧
    Repository._where d ftc (.jobj [(col, .jobj [("neq", .jnull)])]) =
      (col ++ " IS NOT ?", [JVal.jnull]) := by
  refine ⟨?_, ?_, ?_⟩ <;>
  simp [Repository._where, whereGo, entriesOf, elemsOf, joinSep, strOrTrue, compileEntry,
    keysOf, opOf, getProp, isNull, h1, h2, h3, String.append_assoc, string_append_eq_empty]

theorem claim1_witness :
    Repository._where .mysql [] (.jobj [("a", .jnull)]) = ("a IS ?", [JVal.jnull]) ∧
    Repository._where .mysql [] (.jobj [("a", .jobj [("eq", .jnull)])]) =
      ("a IS ?", [JVal.jnull]) ∧
    Repository._where .mysql [] (.jobj [("a", .jobj [("neq", .jnull)])]) =
      ("a IS NOT ?", [JVal.jnull]) :=
  claim1_null_renders_is .mysql [] "a" (by decide) (by decide) (by decide)

/-- Claim C2 (counterexample): on SQLite, `{a: {contains: "x"}}` compiles to
`a LIKE ?` with the *raw* value `"x"` as its argument — not the value
wrapped in `%...%` as the claim states (the `%...%` wrapping exists only in
the `match` branch of the compiler). -/
theorem claim2_counterexample :
    Repository._where .sqlite [] (.jobj [("a", .jobj [("contains", .jstr "x")])]) =
      ("a LIKE ?", [JVal.jstr "x"]) ∧
    Repository._where .sqlite [] (.jobj [("a", .jobj [("contains", .jstr "x")])]) ≠
      ("a LIKE ?", [JVal.jstr "%x%"]) := by
  constructor <;>
  simp [Repository._where, whereGo, entriesOf, elemsOf, joinSep, strOrTrue, compileEntry,
    keysOf, opOf, getProp, isNull, jToString]

/-- Claim C2 (amended): a `contains` predicate emits exactly one comparison
and one argument per dialect: MySQL renders `? MEMBER OF (column)`,
PostgreSQL casts the column to JSONB and tests with `JSONB_EXISTS`, and
SQLite renders `column LIKE ?`; in every dialect the argument is the raw
predicate value (on SQLite it is *not* wrapped in `%...%`). -/
theorem claim2_contains_dialects (ftc : List String) (col : String) (v : JVal)
    (h1 : col ≠ "and") (h2 : col ≠ "or") (h3 : col ≠ "$sql") :
    Repository._where .mysql ftc (.jobj [(col, .jobj [("contains", v)])]) =
      ("? MEMBER OF (" ++ col ++ ")", [v]) ∧
    Repository._where .postgres ftc (.jobj [(col, .jobj [("contains", v)])]) =
      ("JSONB_EXISTS(CAST(" ++ col ++ " AS JSONB), ?)", [v]) ∧
    Repository._where .sqlite ftc (.jobj [(col, .jobj [("contains", v)])]) =
      (col ++ " LIKE ?", [v]) := by
  refine ⟨?_, ?_, ?_⟩ <;>
  simp [Repository._where, whereGo, entriesOf, elemsOf, joinSep, strOrTrue, compileEntry,
    keysOf, opOf, getProp, isNull, h1, h2, h3, String.append_assoc, string_append_eq_empty]

theorem claim2_witness :
    Repository._where .mysql [] (.jobj [("a", .jobj [("contains", .jstr "x")])]) =
      ("? MEMBER OF (a)", [JVal.jstr "x"]) ∧
    Repository._where .postgres [] (.jobj [("a", .jobj [("contains", .jstr "x")])]) =
      ("JSONB_EXISTS(CAST(a AS JSONB), ?)", [JVal.jstr "x"]) ∧
    Repository._where .sqlite [] (.jobj [("a", .jobj [("contains", .jstr "x")])]) =
      ("a LIKE ?", [JVal.jstr "x"]) :=
  claim2_contains_dialects [] "a" (.jstr "x") (by decide) (by decide) (by decide)

/-- Claim C3: when a predicate object carries several operator keys, only
the last key (in insertion order) is honored: the compilation of the whole
predicate equals the compilation of the predicate reduced to its last
entry alone; and when that last key is a plain comparison operator with a
non-null value, the result is exactly one comparison `col <op> ?` with
only that operator's value as argument. -/
theorem claim3_last_key_wins (d : Dialect) (ftc : List String) (col : String)
    (kvs : List (String × JVal)) (h : kvs ≠ [])
    (hnd : (kvs.map Prod.fst).Nodup)
    (hop : (opOf (kvs.getLast h).1).isSome)
    (h1 : col ≠ "and") (h2 : col ≠ "or") (h3 : col ≠ "$sql") :
    Repository._where d ftc (.jobj [(col, .jobj kvs)]) =
      Repository._where d ftc (.jobj [(col, .jobj [kvs.getLast h])]) ∧
    (∀ s, opOf (kvs.getLast h).1 = some s →
      s ∈ (["=", "!=", ">", ">=", "<", "<="] : List String) →
      isNull (kvs.getLast h).2 = false →
      Repository._where d ftc (.jobj [(col, .jobj kvs)]) =
        (col ++ " " ++ s ++ " ?", [(kvs.getLast h).2])) := by
  have hlast : kvs.getLast? = some (kvs.getLast h) := List.getLast?_eq_getLast kvs h
  have hce := compileEntry_jobj_getLast d ftc col kvs (kvs.getLast h).1 (kvs.getLast h).2
    (by rw [hlast]) hop h3
  constructor
  · rw [_where_single d ftc col _ h1 h2, _where_single d ftc col _ h1 h2, hce]
  · intro s hs hmem hnull
    have hkc : (kvs.getLast h).1 ≠ "contains" := by
      intro hk
      rw [hk] at hs
      simp [opOf] at hs
      subst hs
      simp at hmem
    have hk : (kvs.getLast h).1 ≠ "" := by
      intro hk
      rw [hk] at hs
      simp [opOf] at hs
    rw [_where_single d ftc col _ h1 h2, hce]
    have hkeys2 : (keysOf (JVal.jobj [kvs.getLast h])).getLast? = some (kvs.getLast h).1 := by
      simp [keysOf]
    have hprop2 : getProp (JVal.jobj [kvs.getLast h]) (kvs.getLast h).1 = (kvs.getLast h).2 :=
      getProp_jobj_getLast [kvs.getLast h] _ _ (by simp)
    simp only [compileEntry, hkeys2, hprop2, Option.bind_some, hs, hk, hkc, hnull]
    fin_cases hmem <;>
    simp [hs, hk, hkc, h3, hnull, joinSep, strOrTrue, String.append_assoc,
      string_append_eq_empty]

theorem claim3_witness :
    Repository._where .mysql [] (.jobj [("c", .jobj [("gt", .jnum 1), ("lt", .jnum 9)])]) =
      Repository._where .mysql [] (.jobj [("c", .jobj [("lt", .jnum 9)])]) ∧
    Repository._where .mysql [] (.jobj [("c", .jobj [("gt", .jnum 1), ("lt", .jnum 9)])]) =
      ("c < ?", [JVal.jnum 9]) := by
  have h := claim3_last_key_wins .mysql [] "c" [("gt", .jnum 1), ("lt", .jnum 9)]
    (by simp) (by decide) (by decide) (by decide) (by decide) (by decide)
  exact ⟨h.1, h.2 "<" (by decide) (by decide) (by decide)⟩

/-- Claim C4 (counterexample): the combinator `{and: []}` with zero
children does *not* compile to `TRUE`: it compiles to the literal `()`
(the parenthesized empty join), because the `|| "TRUE"` fallback applies
only to the empty overall expression list, not inside a combinator. -/
theorem claim4_counterexample :
    Repository._where .mysql [] (.jobj [("and", .jarr [])]) = ("()", []) ∧
    Repository._where .mysql [] (.jobj [("and", .jarr [])]) ≠ ("TRUE", []) := by
  constructor <;>
  simp [Repository._where, whereGo, entriesOf, elemsOf, joinSep, strOrTrue]

/-- Claim C4 (amended): a combinator node `{and: []}` or `{or: []}` with an
empty child list compiles to the literal SQL `()` (not `TRUE`) and
contributes no arguments. -/
theorem claim4_empty_combinator (d : Dialect) (ftc : List String) :
    Repository._where d ftc (.jobj [("and", .jarr [])]) = ("()", []) ∧
    Repository._where d ftc (.jobj [("or", .jarr [])]) = ("()", []) := by
  constructor <;>
  simp [Repository._where, whereGo, entriesOf, elemsOf, joinSep, strOrTrue]

/-- Claim C10 (counterexample): the placeholder/argument alignment
invariant as stated is violated by a column whose *name* contains `?`:
`{"a?": 5}` on MySQL with no full-text columns (no `in`/`nin`, no `$sql`)
compiles to `a? = ?` — two `?` characters — with a single argument. -/
theorem claim10_counterexample :
    countQ (Repository._where .mysql [] (.jobj [("a?", .jnum 5)])).1 = 2 ∧
    (Repository._where .mysql [] (.jobj [("a?", .jnum 5)])).2.length = 1 := by
  have h : Repository._where .mysql [] (.jobj [("a?", .jnum 5)]) = ("a? = ?", [JVal.jnum 5]) := by
    simp [Repository._where, whereGo, entriesOf, elemsOf, joinSep, strOrTrue, compileEntry,
      keysOf, opOf, getProp, isNull]
  rw [h]
  decide

theorem countQ_append (a b : String) : countQ (a ++ b) = countQ a + countQ b := by
  simp [countQ, String.data_append]

theorem noQ_countQ (s : String) (h : noQ s = true) : countQ s = 0 := by
  simp [noQ, List.all_eq_true] at h
  simp [countQ, List.count_eq_zero]
  intro hmem
  exact h '?' hmem rfl

theorem countQ_joinSep (sep : String) (l : List String) (hsep : countQ sep = 0) :
    countQ (joinSep sep l) = (l.map countQ).sum := by
  induction l with
  | nil => simp [joinSep, countQ]
  | cons s rest ih =>
    cases rest with
    | nil => simp [joinSep]
    | cons t r =>
      simp only [joinSep] at ih ⊢
      simp [countQ_append, hsep, ih]

theorem countQ_joinRep (n : Nat) : countQ (joinRep "?" n ",") = n := by
  rw [joinRep, countQ_joinSep _ _ (by decide)]
  induction n with
  | zero => simp
  | succ m ih =>
    simp_all [List.replicate_succ, countQ]
    omega

theorem countQ_strOrTrue (s : String) : countQ (strOrTrue s) = countQ s := by
  unfold strOrTrue
  split
  · subst s; decide
  · rfl

theorem opOf_pairs (k op : String) (h : opOf k = some op) :
    (k, op) ∈ ([("eq", "="), ("neq", "!="), ("gt", ">"), ("gte", ">="), ("lt", "<"),
      ("lte", "<="), ("in", "IN"), ("contains", "MEMBER OF"), ("nin", "NOT IN"),
      ("match", "MATCH")] : List (String × String)) := by
  unfold opOf at h
  split at h <;> simp_all

theorem compileEntry_align (d : Dialect) (ftc : List String) (name : String) (value : JVal)
    (hftc : ∀ s ∈ ftc, noQ s = true) (hd : ftc = [] ∨ d ≠ .sqlite)
    (hok : entryOk name value = true) :
    ((compileEntry d ftc name value).1.map countQ).sum =
      (compileEntry d ftc name value).2.length := by
  simp only [entryOk, Bool.and_eq_true] at hok
  obtain ⟨⟨hname, hsql⟩, hin⟩ := hok
  have hcol0 : countQ name = 0 := noQ_countQ _ hname
  have hftc0 : countQ (joinSep "," ftc) = 0 := by
    rw [countQ_joinSep _ _ (by decide)]
    refine List.sum_eq_zero ?_
    intro x hx
    simp only [List.mem_map] at hx
    obtain ⟨s, hs, rfl⟩ := hx
    exact noQ_countQ _ (hftc s hs)
  have hsql0 : name = "$sql" → countQ (jToString value) = 0 := by
    intro hn
    subst hn
    simp only [bne_self_eq_false, Bool.false_or] at hsql
    exact noQ_countQ _ hsql
  unfold compileEntry
  cases hkey : (keysOf value).getLast? with
  | none =>
    by_cases hn : name = "$sql"
    · simp [Option.bind, hn, hsql0 hn]
    · simp [Option.bind, hn, countQ_append, hcol0]
      cases isNull value <;> simp <;> decide
  | some k =>
    cases hop : opOf k with
    | none =>
      by_cases hn : name = "$sql"
      · simp [Option.bind, hop, hn, hsql0 hn]
      · simp [Option.bind, hop, hn, countQ_append, hcol0]
        cases isNull value <;> simp <;> decide
    | some op =>
      have hpair := opOf_pairs k op hop
      rw [hkey] at hin
      simp only [List.mem_cons, List.not_mem_nil, or_false] at hpair
      rcases hpair with h|h|h|h|h|h|h|h|h|h <;>
        (rw [Prod.mk.injEq] at h; obtain ⟨rfl, rfl⟩ := h) <;>
        simp only [Option.some_bind, hop, Option.some.injEq, String.reduceEq, if_false, if_true]
      -- eq
      case inl.intro =>
        by_cases hn : name = "$sql"
        · simp [hn, hsql0 hn, opOf]
        · simp only [if_neg hn]
          split <;> simp [countQ_append, hcol0] <;> decide
      -- neq
      case inr.inl.intro =>
        by_cases hn : name = "$sql"
        · simp [hn, hsql0 hn, opOf]
        · simp only [if_neg hn]
          split <;> simp [countQ_append, hcol0] <;> decide
      -- gt
      case inr.inr.inl.intro =>
        by_cases hn : name = "$sql"
        · simp [hn, hsql0 hn, opOf]
        · simp only [if_neg hn]
          split <;> simp [countQ_append, hcol0] <;> decide
      -- gte
      case inr.inr.inr.inl.intro =>
        by_cases hn : name = "$sql"
        · simp [hn, hsql0 hn, opOf]
        · simp only [if_neg hn]
          split <;> simp [countQ_append, hcol0] <;> decide
      -- lt
      case inr.inr.inr.inr.inl.intro =>
        by_cases hn : name = "$sql"
        · simp [hn, hsql0 hn, opOf]
        · simp only [if_neg hn]
          split <;> simp [countQ_append, hcol0] <;> decide
      -- lte
      case inr.inr.inr.inr.inr.inl.intro =>
        by_cases hn : name = "$sql"
        · simp [hn, hsql0 hn, opOf]
        · simp only [if_neg hn]
          split <;> simp [countQ_append, hcol0] <;> decide
      -- in
      case inr.inr.inr.inr.inr.inr.inl.intro =>
        by_cases hn : name = "$sql"
        · simp [hn, hsql0 hn, opOf]
        · simp only [if_neg hn]
          cases hgp : getProp value "in" <;> simp [hgp] at hin <;>
            simp [hgp, isNull, elemsOf, jLength, countQ_append, hcol0, countQ_joinRep,
              (by decide : countQ " " = 0), (by decide : countQ "IN" = 0),
              (by decide : countQ " (" = 0), (by decide : countQ ")" = 0)]
      -- contains
      case inr.inr.inr.inr.inr.inr.inr.inl.intro =>
        by_cases hn : name = "$sql"
        · simp [hn, hsql0 hn, opOf]
        · simp only [if_neg hn]
          cases d <;> split <;> simp [countQ_append, hcol0] <;> decide
      -- nin
      case inr.inr.inr.inr.inr.inr.inr.inr.inl.intro =>
        by_cases hn : name = "$sql"
        · simp [hn, hsql0 hn, opOf]
        · simp only [if_neg hn]
          cases hgp : getProp value "nin" <;> simp [hgp] at hin <;>
            simp [hgp, isNull, elemsOf, jLength, countQ_append, hcol0, countQ_joinRep,
              (by decide : countQ " " = 0), (by decide : countQ "NOT IN" = 0),
              (by decide : countQ " (" = 0), (by decide : countQ ")" = 0)]
      -- match
      case inr.inr.inr.inr.inr.inr.inr.inr.inr.intro =>
        split
        · simp
        · rcases hd with rfl | hd
          · simp [countQ_append, hcol0]
            decide
          · cases hftcE : ftc.isEmpty
            · simp only [hftcE, Bool.false_eq_true, if_false]
              cases d
              · simp [countQ_append, hftc0]
                decide
              · simp [countQ_append, hftc0]
                decide
              · exact absurd rfl hd
            · simp only [hftcE, if_true]
              simp [countQ_append, hcol0]
              decide


theorem whereGo_align (d : Dialect) (ftc : List String)
    (hftc : ∀ s ∈ ftc, noQ s = true) (hd : ftc = [] ∨ d ≠ .sqlite) :
    ∀ l, condOk l = true →
      ((whereGo d ftc l).1.map countQ).sum = (whereGo d ftc l).2.length := by
  intro l
  induction l using whereGo.induct d ftc with
  | case1 =>
    intro _
    simp [whereGo]
  | case2 value rest ih =>
    intro hok
    have hok2 : ∀ w ∈ elemsOf value, condOk (entriesOf w) = true := by
      rw [condOk] at hok
      simp at hok
      exact fun w hw => hok w hw
    simp only [whereGo, reduceIte, String.reduceEq, if_true, if_false, List.map_cons, List.map_nil, List.sum_cons, List.sum_nil, add_zero]
    rw [countQ_append, countQ_append, countQ_joinSep _ _ (by decide)]
    simp only [(by decide : countQ "(" = 0), (by decide : countQ ")" = 0)]
    rw [List.length_flatten, List.map_map, List.map_map, List.map_map, List.map_map]
    simp only [Nat.zero_add, Nat.add_zero]
    refine congrArg List.sum (List.map_congr_left ?_)
    intro p _
    obtain ⟨w, hw⟩ := p
    simp only [Function.comp]
    rw [countQ_strOrTrue, countQ_joinSep _ _ (by decide)]
    exact ih w hw (hok2 w hw)
  | case3 value rest hne ih =>
    intro hok
    have hok2 : ∀ w ∈ elemsOf value, condOk (entriesOf w) = true := by
      rw [condOk] at hok
      simp at hok
      exact fun w hw => hok w hw
    simp only [whereGo, reduceIte, String.reduceEq, if_true, if_false, List.map_cons, List.map_nil, List.sum_cons, List.sum_nil, add_zero]
    rw [countQ_append, countQ_append, countQ_joinSep _ _ (by decide)]
    simp only [(by decide : countQ "(" = 0), (by decide : countQ ")" = 0)]
    rw [List.length_flatten, List.map_map, List.map_map, List.map_map, List.map_map]
    simp only [Nat.zero_add, Nat.add_zero]
    refine congrArg List.sum (List.map_congr_left ?_)
    intro p _
    obtain ⟨w, hw⟩ := p
    simp only [Function.comp]
    rw [countQ_strOrTrue, countQ_joinSep _ _ (by decide)]
    exact ih w hw (hok2 w hw)
  | case4 name value rest hna hno ih =>
    intro hok
    rw [condOk] at hok
    simp only [if_neg hna, if_neg hno, Bool.and_eq_true] at hok
    simp only [whereGo, if_neg hna, if_neg hno]
    simp only [List.map_append, List.sum_append, List.length_append]
    rw [compileEntry_align d ftc name value hftc hd hok.1, ih hok.2]


theorem claim10_alignment (d : Dialect) (ftc : List String) (w : JVal)
    (hftc : ∀ s ∈ ftc, noQ s = true) (hd : ftc = [] ∨ d ≠ .sqlite)
    (hok : condOk (entriesOf w) = true) :
    countQ (Repository._where d ftc w).1 = (Repository._where d ftc w).2.length := by
  have h := whereGo_align d ftc hftc hd (entriesOf w) hok
  simp only [Repository._where]
  rw [countQ_strOrTrue, countQ_joinSep _ _ (by decide)]
  exact h

theorem claim10_witness :
    countQ (Repository._where .mysql ["t"]
      (.jobj [("a", .jnum 5), ("lst", .jobj [("in", .jarr [.jnum 1, .jnum 2])]),
              ("and", .jarr [.jobj [("b", .jnull)]])])).1 =
    (Repository._where .mysql ["t"]
      (.jobj [("a", .jnum 5), ("lst", .jobj [("in", .jarr [.jnum 1, .jnum 2])]),
              ("and", .jarr [.jobj [("b", .jnull)]])])).2.length :=
  claim10_alignment .mysql ["t"] _
    (by decide)
    (Or.inr (by decide))
    (by simp [condOk, entriesOf, entryOk, keysOf, getProp, elemsOf, noQ, jToString])

theorem noTok_cons (c : Char) (l : List Char) (hc : c ≠ ':') :
    noTok (c :: l) = noTok l := by
  rw [noTok.eq_def]
  split
  · rename_i heq
    simp at heq
  · rename_i c2 rest2 heq
    injection heq with h1 h2
    exact absurd h1 hc
  · rename_i c2 rest2 heq
    injection heq with h1 h2
    rw [h2]

theorem transformGo_lit (params : List (String × PVal)) (safe : Bool) (lit rest : List Char)
    (hlit : noTok lit = true) (hrest : rest = [] ∨ rest.head? = some ':') :
    transformGo params safe (lit ++ rest) =
      (transformGo params safe rest).map (fun r => (lit ++ r.1, r.2)) := by
  induction lit using noTok.induct with
  | case1 =>
    simp only [List.nil_append, List.nil_append]
    cases h : transformGo params safe rest <;> simp [Except.map]
  | case2 c l ih =>
    simp only [noTok, Bool.and_eq_true, Bool.not_eq_true'] at hlit
    obtain ⟨hc, hl⟩ := hlit
    have ih2 := ih hl
    simp only [List.cons_append]
    rw [transformGo.eq_def]
    simp only [hc, Bool.false_eq_true, if_false]
    rw [← List.cons_append, ih2]
    cases h : transformGo params safe rest <;> simp [Except.map]
  | case3 c l hne ih =>
    by_cases hc : c = ':'
    · subst hc
      have hl : l = [] := by
        cases l with
        | nil => rfl
        | cons a b => exact (hne a b rfl rfl).elim
      subst hl
      rcases hrest with rfl | hh
      · simp [transformGo, Except.map]
      · cases rest with
        | nil => simp at hh
        | cons r0 r2 =>
          have hr0 : r0 = ':' := by simpa using hh
          subst hr0
          simp only [List.singleton_append]
          rw [transformGo.eq_def]
          simp only [(by decide : isIdentStart ':' = false), Bool.false_eq_true, if_false]
          cases h : transformGo params safe (':' :: r2) <;> simp [Except.map, h]
          
    · have hl : noTok l = true := by
        rwa [noTok_cons c l hc] at hlit
      rw [List.cons_append, transformGo.eq_def]
      split
      · rename_i heq
        simp at heq
      · rename_i c2 r2 heq
        injection heq with h1 h2
        exact absurd h1 hc
      · rename_i c2 r2 heq
        injection heq with h1 h2
        subst h1
        rw [← h2, ih hl]
        cases h : transformGo params safe rest <;> simp [Except.map, h]

theorem takeWhile_all_append (p : Char → Bool) (l1 l2 : List Char)
    (h1 : l1.all p = true)
    (h2 : l2 = [] ∨ ∃ c r, l2 = c :: r ∧ p c = false) :
    (l1 ++ l2).takeWhile p = l1 ∧ (l1 ++ l2).dropWhile p = l2 := by
  induction l1 with
  | nil =>
    rcases h2 with rfl | ⟨c, r, rfl, hc⟩
    · simp
    · simp [List.takeWhile_cons, List.dropWhile_cons, hc]
  | cons a l1 ih =>
    simp only [List.all_cons, Bool.and_eq_true] at h1
    have := ih h1.2
    simp [List.takeWhile_cons, List.dropWhile_cons, h1.1, this.1, this.2]

theorem transformGo_token (params : List (String × PVal)) (safe : Bool) (nm : String)
    (rest : List Char) (hid : identName nm = true)
    (hrest : rest = [] ∨ ∃ c r, rest = c :: r ∧ isIdentCont c = false) :
    transformGo params safe (':' :: (nm.data ++ rest)) =
      (if isUndefP (lookupParam params nm) && !safe then
        Except.error ("Undefined parameter ':" ++ nm ++ "'")
      else
        (transformGo params safe rest).map
          (fun r => ((placeholderOf (lookupParam params nm)).data ++ r.1,
                     argsOf (lookupParam params nm) ++ r.2))) := by
  unfold identName at hid
  obtain ⟨c, cs, hdata⟩ : ∃ c cs, nm.data = c :: cs := by
    cases h : nm.data with
    | nil => rw [h] at hid; simp at hid
    | cons a b => exact ⟨a, b, rfl⟩
  rw [hdata] at hid
  simp only [Bool.and_eq_true] at hid
  obtain ⟨hstart, hcont⟩ := hid
  have htd := takeWhile_all_append isIdentCont cs rest hcont hrest
  rw [hdata]
  simp only [List.cons_append]
  rw [transformGo.eq_def]
  simp only [hstart, if_true]
  have hmk2 : String.mk (c :: cs) = nm := by
    cases nm
    simp_all
  simp only [htd.1, htd.2, hmk2]
  split
  · rfl
  · cases h : transformGo params safe rest <;> simp [Except.map, h]

theorem joinSegs_data_shape (segs : List (String × String)) :
    (joinSegs segs).data = [] ∨ ∃ r, (joinSegs segs).data = ':' :: r := by
  cases segs with
  | nil => exact Or.inl rfl
  | cons p rest =>
    refine Or.inr ⟨p.1.data ++ (p.2.data ++ (joinSegs rest).data), ?_⟩
    simp [joinSegs, String.data_append]

theorem transformGo_segs (params : List (String × PVal)) (safe : Bool) :
    ∀ segs, (∀ p ∈ segs, segOk p = true) →
      (∀ p ∈ segs, safe = true ∨ isUndefP (lookupParam params p.1) = false) →
      transformGo params safe (joinSegs segs).data =
        .ok ((expTail params segs).data, expectedArgs params segs) := by
  intro segs
  induction segs with
  | nil =>
    intro _ _
    simp [joinSegs, expTail, expectedArgs, transformGo]
  | cons p rest ih =>
    intro hok hall
    obtain ⟨nm, lit⟩ := p
    have hsegok := hok _ (List.mem_cons_self _ _)
    simp only [segOk, Bool.and_eq_true] at hsegok
    obtain ⟨⟨hid, hnotok⟩, hmax⟩ := hsegok
    have hdata : (joinSegs ((nm, lit) :: rest)).data =
        ':' :: (nm.data ++ (lit.data ++ (joinSegs rest).data)) := by
      simp [joinSegs, String.data_append]
    rw [hdata]
    rw [transformGo_token params safe nm _ hid ?hr]
    case hr =>
      cases hl : lit.data with
      | cons c r =>
        refine Or.inr ⟨c, r ++ (joinSegs rest).data, by simp, ?_⟩
        rw [hl] at hmax
        simpa using hmax
      | nil =>
        simp only [List.nil_append]
        rcases joinSegs_data_shape rest with h | ⟨r, h⟩
        · exact Or.inl h
        · exact Or.inr ⟨':', r, h, by decide⟩
    have hnu : (isUndefP (lookupParam params nm) && !safe) = false := by
      rcases hall _ (List.mem_cons_self _ _) with h | h
      · simp [h]
      · simp [h]
    rw [hnu]
    simp only [Bool.false_eq_true, if_false]
    rw [transformGo_lit params safe lit.data _ hnotok ?hr2]
    case hr2 =>
      rcases joinSegs_data_shape rest with h | ⟨r, h⟩
      · exact Or.inl (by simp [h])
      · exact Or.inr (by simp [h])
    rw [ih (fun q hq => hok q (List.mem_cons_of_mem _ hq))
        (fun q hq => hall q (List.mem_cons_of_mem _ hq))]
    simp [Except.map, expTail, expectedArgs, String.data_append]

theorem transformGo_segs_err (params : List (String × PVal)) :
    ∀ segs, (∀ p ∈ segs, segOk p = true) →
      (∃ p ∈ segs, isUndefP (lookupParam params p.1) = true) →
      ∃ e, transformGo params false (joinSegs segs).data = .error e := by
  intro segs
  induction segs with
  | nil =>
    intro _ hmiss
    simp at hmiss
  | cons p rest ih =>
    intro hok hmiss
    obtain ⟨nm, lit⟩ := p
    have hsegok := hok _ (List.mem_cons_self _ _)
    simp only [segOk, Bool.and_eq_true] at hsegok
    obtain ⟨⟨hid, hnotok⟩, hmax⟩ := hsegok
    have hdata : (joinSegs ((nm, lit) :: rest)).data =
        ':' :: (nm.data ++ (lit.data ++ (joinSegs rest).data)) := by
      simp [joinSegs, String.data_append]
    rw [hdata]
    rw [transformGo_token params false nm _ hid ?hr]
    case hr =>
      cases hl : lit.data with
      | cons c r =>
        refine Or.inr ⟨c, r ++ (joinSegs rest).data, by simp, ?_⟩
        rw [hl] at hmax
        simpa using hmax
      | nil =>
        simp only [List.nil_append]
        rcases joinSegs_data_shape rest with h | ⟨r, h⟩
        · exact Or.inl h
        · exact Or.inr ⟨':', r, h, by decide⟩
    by_cases hu : isUndefP (lookupParam params nm) = true
    · refine ⟨"Undefined parameter ':" ++ nm ++ "'", ?_⟩
      simp [hu]
    · simp only [Bool.not_eq_true] at hu
      simp only [hu, Bool.false_and, Bool.false_eq_true, if_false]
      rw [transformGo_lit params false lit.data _ hnotok ?hr2]
      case hr2 =>
        rcases joinSegs_data_shape rest with h | ⟨r, h⟩
        · exact Or.inl (by simp [h])
        · exact Or.inr (by simp [h])
      have hmiss2 : ∃ q ∈ rest, isUndefP (lookupParam params q.1) = true := by
        rcases hmiss with ⟨q, hq, hqundef⟩
        rcases List.mem_cons.mp hq with rfl | hq2
        · exact absurd hqundef (by simp [hu])
        · exact ⟨q, hq2, hqundef⟩
      obtain ⟨e, he⟩ := ih (fun q hq => hok q (List.mem_cons_of_mem _ hq)) hmiss2
      exact ⟨e, by simp [he, Except.map]⟩

theorem data_append_mk (a b : String) : String.mk (a.data ++ b.data) = a ++ b := rfl

/-- Success behaviour of the binder on a decomposed template (shared
backbone of the named-parameter claims). -/
theorem transformParameters_ok (params : List (String × PVal)) (safe : Bool) (lit0 : String)
    (segs : List (String × String))
    (hlit0 : noTok lit0.data = true)
    (hsegs : ∀ p ∈ segs, segOk p = true)
    (hbound : ∀ p ∈ segs, isUndefP (lookupParam params p.1) = false) :
    DB._transformParameters (renderTemplate lit0 segs) params safe =
      .ok (expectedSql params lit0 segs, expectedArgs params segs) := by
  unfold DB._transformParameters renderTemplate expectedSql
  rw [String.data_append,
    transformGo_lit params safe lit0.data _ hlit0 ?hs,
    transformGo_segs params safe segs hsegs (fun p hp => Or.inr (hbound p hp))]
  case hs =>
    rcases joinSegs_data_shape segs with h | ⟨r, h⟩
    · exact Or.inl h
    · exact Or.inr (by simp [h])
  simp [Except.map, data_append_mk]

/-- Claim C5: the parameter binder replaces every `:identifier` token —
including repeated occurrences of the same name — by one `?` for a
non-array value and by N comma-joined `?` for an array of length N, and
appends the bound value(s) to the output list in left-to-right occurrence
order, re-emitting the value at each occurrence.  Stated over an arbitrary
decomposition of the template into literals and well-formed tokens. -/
theorem claim5_bind_named (params : List (String × PVal)) (safe : Bool) (lit0 : String)
    (segs : List (String × String))
    (hlit0 : noTok lit0.data = true)
    (hsegs : ∀ p ∈ segs, segOk p = true)
    (hbound : ∀ p ∈ segs, isUndefP (lookupParam params p.1) = false) :
    DB._transformParameters (renderTemplate lit0 segs) params safe =
      .ok (expectedSql params lit0 segs, expectedArgs params segs) :=
  transformParameters_ok params safe lit0 segs hlit0 hsegs hbound

theorem claim5_witness :
    DB._transformParameters "WHERE a = :a AND b = :a" [("a", .prim (.pint 5))] false =
      .ok ("WHERE a = ? AND b = ?", [.pint 5, .pint 5]) := by
  have h := claim5_bind_named [("a", .prim (.pint 5))] false "WHERE a = "
    [("a", " AND b = "), ("a", "")] (by decide) (by decide) (by decide)
  exact h

/-- Claim C6: when a referenced name is absent from the argument map
(i.e. looks up to `undefined`), the binder raises an error unless the
permissive `safe` flag is set, in which case it succeeds and substitutes
the missing value as `undefined` in the output argument list; and when no
referenced name is missing, the result does not depend on the flag. -/
theorem claim6_missing_parameter (params : List (String × PVal)) (lit0 : String)
    (segs : List (String × String))
    (hlit0 : noTok lit0.data = true)
    (hsegs : ∀ p ∈ segs, segOk p = true) :
    ((∃ p ∈ segs, isUndefP (lookupParam params p.1) = true) →
        (∃ e, DB._transformParameters (renderTemplate lit0 segs) params false =
          .error e) ∧
        DB._transformParameters (renderTemplate lit0 segs) params true =
          .ok (expectedSql params lit0 segs, expectedArgs params segs)) ∧
    ((∀ p ∈ segs, isUndefP (lookupParam params p.1) = false) →
        DB._transformParameters (renderTemplate lit0 segs) params true =
          DB._transformParameters (renderTemplate lit0 segs) params false) := by
  constructor
  · intro hmiss
    constructor
    · obtain ⟨e, he⟩ := transformGo_segs_err params segs hsegs hmiss
      refine ⟨e, ?_⟩
      unfold DB._transformParameters renderTemplate
      rw [String.data_append,
        transformGo_lit params false lit0.data _ hlit0 ?hs, he]
      case hs =>
        rcases joinSegs_data_shape segs with h | ⟨r, h⟩
        · exact Or.inl h
        · exact Or.inr (by simp [h])
      rfl
    · unfold DB._transformParameters renderTemplate expectedSql
      rw [String.data_append,
        transformGo_lit params true lit0.data _ hlit0 ?hs,
        transformGo_segs params true segs hsegs (fun p _ => Or.inl rfl)]
      case hs =>
        rcases joinSegs_data_shape segs with h | ⟨r, h⟩
        · exact Or.inl h
        · exact Or.inr (by simp [h])
      simp [Except.map, data_append_mk]
  · intro hbound
    rw [claim5_bind_named params true lit0 segs hlit0 hsegs hbound,
      claim5_bind_named params false lit0 segs hlit0 hsegs hbound]

theorem claim6_witness :
    (∃ e, DB._transformParameters "x = :a" [] false = Except.error e) ∧
    DB._transformParameters "x = :a" [] true = .ok ("x = ?", [Prim.undefined]) := by
  have h := (claim6_missing_parameter [] "x = " [("a", "")] (by decide) (by decide)).1
    ⟨("a", ""), by simp, by decide⟩
  exact h

/-- Claim C7: the freshness check is two-staged: if the source file's
modification time (as a second-precision ISO string) is strictly newer
than the schema's embedded generation timestamp, the schema is reported
outdated without consulting the etags; otherwise it is outdated exactly
when the recomputed etag of the source file differs from the stored one. -/
theorem claim7_outdated_two_stage (sd fd se ce : String) :
    (sd < fd → DDL.outdatedSchema sd fd se ce = true) ∧
    (¬ sd < fd → (DDL.outdatedSchema sd fd se ce = true ↔ ce ≠ se)) := by
  constructor
  · intro h
    simp [DDL.outdatedSchema, h]
  · intro h
    simp [DDL.outdatedSchema, h, bne_iff_ne]
    exact ne_comm

theorem claim7_witness :
    DDL.outdatedSchema "2024-01-01T00:00:00" "2024-06-01T00:00:00" "etagA" "etagA" = true ∧
    (DDL.outdatedSchema "2024-06-01T00:00:00" "2024-01-01T00:00:00" "etagA" "etagB" = true ↔
      ("etagB" : String) ≠ "etagA") :=
  ⟨(claim7_outdated_two_stage "2024-01-01T00:00:00" "2024-06-01T00:00:00" "etagA" "etagA").1
      (by rw [String.lt_iff_toList_lt]; decide),
   (claim7_outdated_two_stage "2024-06-01T00:00:00" "2024-01-01T00:00:00" "etagA" "etagB").2
      (by rw [String.lt_iff_toList_lt]; decide)⟩

/-- Claim C8: the column clause rendered by `DDL.createColumn` is the
concatenation of its parts, and its nullability part is `" NOT NULL"`
exactly when the column declares a primary key or its name is listed in
the schema's `required` set (`required(n) = schema.required?.includes(n)`
in `DDL.createTable`); every other column's nullability part is empty,
i.e. the column is rendered nullable. -/
theorem claim8_not_null_iff (d : Dialect) (name : String) (column : ColumnD)
    (req : List String) (namePad : Nat) :
    (DDL.createColumn d name column (req.contains name) namePad =
      (DDL.createColumnParts d name column (req.contains name) namePad).map DDL.renderParts) ∧
    (∀ parts, DDL.createColumnParts d name column (req.contains name) namePad = some parts →
      parts.nullable = DDL.nullableClause column (req.contains name)) ∧
    (DDL.nullableClause column (req.contains name) = " NOT NULL" ↔
      (column.primaryKey.isSome = true ∨ name ∈ req)) ∧
    ((¬ (column.primaryKey.isSome = true ∨ name ∈ req)) →
      DDL.nullableClause column (req.contains name) = "") := by
  refine ⟨rfl, ?_, ?_, ?_⟩
  · intro parts hp
    unfold DDL.createColumnParts at hp
    split at hp
    · exact absurd hp (by simp)
    · simp only [Option.some.injEq] at hp
      rw [← hp]
      rfl
  · unfold DDL.nullableClause
    split
    · rename_i h
      simp only [true_iff]
      rcases h with h | h
      · exact Or.inl h
      · exact Or.inr (List.elem_iff.mp h)
    · rename_i h
      constructor
      · intro habs
        exact absurd habs (by decide)
      · intro hor
        exfalso
        apply h
        rcases hor with h1 | h1
        · exact Or.inl h1
        · exact Or.inr (List.elem_iff.mpr h1)
  · intro h
    unfold DDL.nullableClause
    rw [if_neg]
    intro hc
    rcases hc with hc | hc
    · exact h (Or.inl hc)
    · exact h (Or.inr (List.elem_iff.mp hc))

theorem claim8_witness :
    DDL.nullableClause { type := "integer", primaryKey := some true } (["x"].contains "id") =
      " NOT NULL" ∧
    DDL.nullableClause { type := "string" } (["x"].contains "nick") = "" :=
  ⟨(claim8_not_null_iff .mysql "id" { type := "integer", primaryKey := some true }
      ["x"] 10).2.2.1.mpr (Or.inl rfl),
   (claim8_not_null_iff .mysql "nick" { type := "string" } ["x"] 10).2.2.2 (by simp)⟩

/-- Claim C9 (code bug): a column with a numeric `maximum` bound and no
inline `constraint` yields, on a non-SQLite dialect, a CHECK clause named
`<table>_<column>` whose expression is `age >= 10` — a *lower* bound at
the maximum (the source reuses `>=` from the `minimum` line) — instead of
the upper bound `age <= 10` that `maximum` is documented to mean. -/
theorem claim9_maximum_renders_ge :
    DDL.createColumnConstraint .mysql "t" "age"
      { type := "integer", maximum := some (.num 10) } 4 =
      "    CONSTRAINT t_age CHECK (age >= 10),\n" ∧
    DDL.createColumnConstraint .mysql "t" "age"
      { type := "integer", maximum := some (.num 10) } 4 ≠
      "    CONSTRAINT t_age CHECK (age <= 10),\n" := by
  constructor
  · rfl
  · decide

end Dbx
